import Mathlib

/-!
Verification of the AI-Butler conversational relay.

This file embeds the pure/stateful core of the repository in Lean:

* `format_sarcastic_response` (src/app.py) — splitting the model output into
  the primary answer and the `<sarcasm>…</sarcasm>` asides;
* the per-user memory store and `process_message` (src/app.py);
* the bounded ReAct agent loop configured by `create_agent_for_user`
  (src/app.py), with the executor itself modelled from the spec since
  LangChain is an external collaborator;
* `get_weather` / `get_coordinates` (src/tools/weather_tool.py);
* `get_news` (src/tools/news_tool.py);
* `get_webpage_content` (src/tools/internet_tool.py).

External effects (HTTP requests, the language model) are passed in as explicit
parameters: a tool receives the decoded provider response (or a request error)
instead of performing the request, and the pipeline receives the agent
invocation outcome.  Python exceptions escaping a call are modelled with
`Except`.  Machine text is `String` (a structure over `List Char` in this
toolchain); the character-level helpers below mirror the Python string
operations used by the source.
-/

/-! ## Python string primitives -/

/-- The whitespace characters recognised by Python's `str.strip()` /
`str.isspace()`: ASCII whitespace plus the Unicode space separators. -/
def isPySpace (c : Char) : Bool :=
  c == ' ' || c == '\t' || c == '\n' || c == '\r' || c == '\x0b' || c == '\x0c' ||
  c == '\x1c' || c == '\x1d' || c == '\x1e' || c == '\x1f' || c == '\x85' ||
  c == '\xa0' || c == ' ' || c == ' ' || c == ' ' || c == ' ' ||
  c == ' ' || c == ' ' || c == ' ' || c == ' ' || c == ' ' ||
  c == ' ' || c == ' ' || c == ' ' || c == ' ' || c == ' ' ||
  c == ' ' || c == ' ' || c == '　'

/-- Python `str.strip()` on a character list: drop leading and trailing
whitespace. -/
def pyStripL (l : List Char) : List Char :=
  ((l.dropWhile isPySpace).reverse.dropWhile isPySpace).reverse

/-- Python `str.strip()`. -/
def pyStrip (s : String) : String :=
  String.mk (pyStripL s.data)

/-! ## `format_sarcastic_response` (src/app.py lines 148–169)

The source applies the regex `<sarcasm>(.*?)</sarcasm>` with `re.DOTALL`:
`findall` collects the captured contents of every non-overlapping match,
scanning left to right, with the non-greedy body ending at the first
`</sarcasm>` after each `<sarcasm>`; `sub('')` deletes exactly those matches.
`scanSarcasm` below performs the same scan, returning the captured segments in
order together with the text with the matches removed. -/

def openTag : List Char := "<sarcasm>".data

def closeTag : List Char := "</sarcasm>".data

/-- `isPref p l` holds when `p` is a prefix of `l`. -/
def isPref : List Char → List Char → Bool
  | [], _ => true
  | _ :: _, [] => false
  | p :: ps, c :: cs => p == c && isPref ps cs

/-- Split `l` at the first occurrence of `</sarcasm>`: the part before the tag
and the part after it (the regex body `(.*?)` is non-greedy, so each match ends
at the first closing delimiter). -/
def splitAtClose : List Char → Option (List Char × List Char)
  | [] => none
  | c :: cs =>
    if isPref closeTag (c :: cs) then some ([], (c :: cs).drop closeTag.length)
    else
      match splitAtClose cs with
      | some (a, b) => some (c :: a, b)
      | none => none

/-- The regex scan, with explicit fuel (one unit per character examined) so
that the recursion is structural.  For `f ≥ l.length`, `scanFuel f l` returns
`(captured segments in order, text with the matches deleted)`. -/
def scanFuel : Nat → List Char → List (List Char) × List Char
  | 0, l => ([], l)
  | _ + 1, [] => ([], [])
  | f + 1, c :: cs =>
    if isPref openTag (c :: cs) then
      match splitAtClose ((c :: cs).drop openTag.length) with
      | some (content, rest) =>
        let r := scanFuel f rest
        (content :: r.1, r.2)
      | none => ([], c :: cs)
    else
      let r := scanFuel f cs
      (r.1, c :: r.2)

/-- The scan of the full input: captured `<sarcasm>` segments in order of
appearance, and the input with every match removed. -/
def scanSarcasm (l : List Char) : List (List Char) × List Char :=
  scanFuel l.length l

/-- One formatted aside: `f"\n\n💭 _{comment.strip()}_"` (src/app.py line 166). -/
def sarcasmEmphasis (comment : List Char) : List Char :=
  "\n\n💭 _".data ++ pyStripL comment ++ "_".data

/-- `format_sarcastic_response` (src/app.py lines 148–169): find all
`<sarcasm>(.*?)</sarcasm>` matches, delete them from the response, strip the
result, and append each captured comment as its own emphasised line. -/
def format_sarcastic_response (response : String) : String :=
  let r := scanSarcasm response.data
  let clean_response := pyStripL r.2
  String.mk (clean_response ++ (r.1.map sarcasmEmphasis).flatten)

/-! ### Lemmas about the scan -/

theorem isPref_iff (p : List Char) : ∀ l, isPref p l = true ↔ ∃ r, l = p ++ r := by
  induction p with
  | nil =>
    intro l
    simp [isPref]
  | cons a as ih =>
    intro l
    cases l with
    | nil => simp [isPref]
    | cons c cs =>
      simp only [isPref, Bool.and_eq_true, beq_iff_eq, ih cs, List.cons_append]
      constructor
      · rintro ⟨rfl, r, rfl⟩
        exact ⟨r, rfl⟩
      · rintro ⟨r, h⟩
        injection h with h1 h2
        exact ⟨h1.symm, r, h2⟩

theorem isPref_append (p r : List Char) : isPref p (p ++ r) = true :=
  (isPref_iff p (p ++ r)).2 ⟨r, rfl⟩

theorem splitAtClose_sound :
    ∀ l a b, splitAtClose l = some (a, b) → l = a ++ closeTag ++ b := by
  intro l
  induction l with
  | nil => intro a b h; simp [splitAtClose] at h
  | cons c cs ih =>
    intro a b h
    by_cases hp : isPref closeTag (c :: cs) = true
    · simp only [splitAtClose, if_pos hp, Option.some.injEq, Prod.mk.injEq] at h
      obtain ⟨ha, hb⟩ := h
      obtain ⟨r, hr⟩ := (isPref_iff closeTag (c :: cs)).1 hp
      subst hb
      rw [← ha, hr]
      simp [List.drop_left]
    · simp only [splitAtClose, if_neg hp] at h
      cases hsp : splitAtClose cs with
      | none => rw [hsp] at h; simp at h
      | some p =>
        obtain ⟨a', b'⟩ := p
        rw [hsp] at h
        simp only [Option.some.injEq, Prod.mk.injEq] at h
        obtain ⟨ha, hb⟩ := h
        subst hb
        rw [← ha, ih a' b' hsp]
        simp

theorem splitAtClose_length {l a b : List Char} (h : splitAtClose l = some (a, b)) :
    b.length + 10 ≤ l.length := by
  have hs := splitAtClose_sound l a b h
  have hc : closeTag.length = 10 := rfl
  rw [hs]
  simp only [List.length_append, hc]
  omega

/-- `scanFuel` does not depend on the fuel once it is at least the length of
the input. -/
theorem scanFuel_fuel_irrel :
    ∀ f l, l.length ≤ f → scanFuel f l = scanFuel l.length l := by
  intro f
  induction f using Nat.strong_induction_on with
  | _ f ih =>
    intro l hl
    cases f with
    | zero =>
      have : l = [] := List.eq_nil_of_length_eq_zero (Nat.le_zero.mp hl)
      subst this
      rfl
    | succ g =>
      cases l with
      | nil => rfl
      | cons c cs =>
        simp only [List.length_cons] at hl
        have hcs : cs.length ≤ g := by omega
        by_cases hp : isPref openTag (c :: cs) = true
        · cases hsp : splitAtClose ((c :: cs).drop openTag.length) with
          | none =>
            show scanFuel (g + 1) (c :: cs) = scanFuel (cs.length + 1) (c :: cs)
            simp only [scanFuel, hp, if_true, hsp]
          | some p =>
            obtain ⟨content, rest⟩ := p
            have hrest : rest.length ≤ cs.length := by
              have h1 := splitAtClose_length hsp
              have h2 : ((c :: cs).drop openTag.length).length
                  = cs.length + 1 - openTag.length := by
                simp
              have h3 : openTag.length = 9 := rfl
              rw [h2, h3] at h1
              omega
            show scanFuel (g + 1) (c :: cs) = scanFuel (cs.length + 1) (c :: cs)
            simp only [scanFuel, hp, if_true, hsp]
            have e1 : scanFuel g rest = scanFuel rest.length rest :=
              ih g (Nat.lt_succ_self g) rest (le_trans hrest hcs)
            have e2 : scanFuel cs.length rest = scanFuel rest.length rest :=
              ih cs.length (by omega) rest hrest
            rw [e1, e2]
        · show scanFuel (g + 1) (c :: cs) = scanFuel (cs.length + 1) (c :: cs)
          simp only [scanFuel, hp, if_false]
          rw [ih g (Nat.lt_succ_self g) cs hcs]
          simp

theorem openTag_eq : openTag = '<' :: "sarcasm>".data := rfl

theorem closeTag_eq : closeTag = '<' :: "/sarcasm>".data := rfl

theorem splitAtClose_drop_length {c : Char} {cs content rest : List Char}
    (hsp : splitAtClose ((c :: cs).drop openTag.length) = some (content, rest)) :
    rest.length ≤ cs.length := by
  have h1 := splitAtClose_length hsp
  have h2 : ((c :: cs).drop openTag.length).length
      = cs.length + 1 - openTag.length := by simp
  have h3 : openTag.length = 9 := rfl
  rw [h2, h3] at h1
  omega

/-- Unfolding: at a position where no `<sarcasm>` starts, the character is kept
and the scan continues. -/
theorem scanSarcasm_cons_nomatch {c : Char} {cs : List Char}
    (hp : isPref openTag (c :: cs) = false) :
    scanSarcasm (c :: cs) = ((scanSarcasm cs).1, c :: (scanSarcasm cs).2) := by
  show scanFuel (cs.length + 1) (c :: cs) = _
  simp [scanFuel, hp, scanSarcasm]

/-- Unfolding: at a `<sarcasm>` with a later `</sarcasm>`, the content up to the
first `</sarcasm>` is captured and the scan continues after the closing tag. -/
theorem scanSarcasm_cons_match {c : Char} {cs content rest : List Char}
    (hp : isPref openTag (c :: cs) = true)
    (hsp : splitAtClose ((c :: cs).drop openTag.length) = some (content, rest)) :
    scanSarcasm (c :: cs) = (content :: (scanSarcasm rest).1, (scanSarcasm rest).2) := by
  show scanFuel (cs.length + 1) (c :: cs) = _
  simp only [scanFuel, hp, if_true, hsp]
  rw [scanFuel_fuel_irrel cs.length rest (splitAtClose_drop_length hsp)]
  rfl

/-- Unfolding: an unclosed `<sarcasm>` matches nothing, and nothing after it
can match either. -/
theorem scanSarcasm_cons_noclose {c : Char} {cs : List Char}
    (hp : isPref openTag (c :: cs) = true)
    (hsp : splitAtClose ((c :: cs).drop openTag.length) = none) :
    scanSarcasm (c :: cs) = ([], c :: cs) := by
  show scanFuel (cs.length + 1) (c :: cs) = _
  simp only [scanFuel, hp, if_true, hsp]

/-- Text containing no `<` scans through unchanged. -/
theorem scanSarcasm_append_of_no_lt {a : List Char} (ha : ∀ c ∈ a, c ≠ '<') :
    ∀ l, scanSarcasm (a ++ l) = ((scanSarcasm l).1, a ++ (scanSarcasm l).2) := by
  induction a with
  | nil => intro l; simp
  | cons c cs ih =>
    intro l
    have hc : c ≠ '<' := ha c (List.mem_cons_self c cs)
    have hp : isPref openTag (c :: (cs ++ l)) = false := by
      rw [openTag_eq]
      simp only [isPref, Bool.and_eq_false_iff]
      left
      simp [Ne.symm hc]
    rw [List.cons_append, scanSarcasm_cons_nomatch hp,
      ih (fun x hx => ha x (List.mem_cons_of_mem c hx)) l]
    simp

/-- `splitAtClose` on `s ++ </sarcasm> ++ r` with no `<` in `s` splits exactly
at that closing tag. -/
theorem splitAtClose_of_no_lt {s : List Char} (hs : ∀ c ∈ s, c ≠ '<')
    (r : List Char) : splitAtClose (s ++ (closeTag ++ r)) = some (s, r) := by
  induction s with
  | nil =>
    have e : closeTag ++ r = '<' :: ("/sarcasm>".data ++ r) := by
      rw [closeTag_eq, List.cons_append]
    rw [List.nil_append, e, splitAtClose, ← e, if_pos (isPref_append closeTag r)]
    rw [List.drop_left]
  | cons c cs ih =>
    have hc : c ≠ '<' := hs c (List.mem_cons_self c cs)
    have hp : isPref closeTag (c :: (cs ++ (closeTag ++ r))) = false := by
      rw [closeTag_eq]
      simp only [isPref, Bool.and_eq_false_iff]
      left
      simp [Ne.symm hc]
    rw [List.cons_append, splitAtClose, if_neg (by simp [hp]),
      ih (fun x hx => hs x (List.mem_cons_of_mem c hx))]

/-- A well-delimited segment with no `<` inside is captured whole, and the scan
resumes right after its closing tag. -/
theorem scanSarcasm_tagged {s : List Char} (hs : ∀ c ∈ s, c ≠ '<')
    (r : List Char) :
    scanSarcasm (openTag ++ (s ++ (closeTag ++ r)))
      = (s :: (scanSarcasm r).1, (scanSarcasm r).2) := by
  have e : openTag ++ (s ++ (closeTag ++ r))
      = '<' :: ("sarcasm>".data ++ (s ++ (closeTag ++ r))) := by
    rw [openTag_eq, List.cons_append]
  have hdrop : ("sarcasm>".data ++ (s ++ (closeTag ++ r))).drop openTag.length.pred
      = s ++ (closeTag ++ r) := by
    have : openTag.length = 9 := rfl
    have h8 : ("sarcasm>".data).length = 8 := rfl
    rw [show openTag.length.pred = ("sarcasm>".data).length from rfl]
    exact List.drop_left _ _
  have hp : isPref openTag ('<' :: ("sarcasm>".data ++ (s ++ (closeTag ++ r)))) = true := by
    rw [← e]; exact isPref_append _ _
  have hsp : splitAtClose (('<' :: ("sarcasm>".data ++ (s ++ (closeTag ++ r)))).drop openTag.length)
      = some (s, r) := by
    rw [← e, List.drop_left, splitAtClose_of_no_lt hs r]
  rw [e, scanSarcasm_cons_match hp hsp]

/-- An input assembled from plain text `t0`, then for each pair `(sᵢ, tᵢ)` a
delimited segment `<sarcasm>sᵢ</sarcasm>` followed by plain text `tᵢ`. -/
def buildInput : List Char → List (List Char × List Char) → List Char
  | t0, [] => t0
  | t0, (s, t) :: ps => t0 ++ (openTag ++ (s ++ (closeTag ++ buildInput t ps)))

/-- The concatenation of the plain-text parts of `buildInput`'s second
argument. -/
def textsConcat (ps : List (List Char × List Char)) : List Char :=
  (ps.map Prod.snd).flatten

/-- The scan extracts exactly the delimited segments, in order of appearance,
and the remaining text is the plain text with the matches deleted. -/
theorem scanSarcasm_buildInput (ps : List (List Char × List Char))
    (hps : ∀ p ∈ ps, (∀ c ∈ p.1, c ≠ '<') ∧ (∀ c ∈ p.2, c ≠ '<')) :
    ∀ t0, (∀ c ∈ t0, c ≠ '<') →
      scanSarcasm (buildInput t0 ps) = (ps.map Prod.fst, t0 ++ textsConcat ps) := by
  induction ps with
  | nil =>
    intro t0 h0
    have h := scanSarcasm_append_of_no_lt h0 []
    simp only [List.append_nil] at h
    rw [buildInput, h]
    simp [textsConcat, scanSarcasm, scanFuel]
  | cons p ps ih =>
    obtain ⟨s, t⟩ := p
    intro t0 h0
    have hmem : (s, t) ∈ (s, t) :: ps := List.mem_cons_self _ _
    rw [buildInput, scanSarcasm_append_of_no_lt h0,
      scanSarcasm_tagged (hps (s, t) hmem).1,
      ih (fun q hq => hps q (List.mem_cons_of_mem _ hq)) t (hps (s, t) hmem).2]
    simp [textsConcat]

/-- `buildInput` at the `String` level. -/
def buildInputS : String → List (String × String) → String
  | t0, [] => t0
  | t0, (s, t) :: ps => t0 ++ "<sarcasm>" ++ s ++ "</sarcasm>" ++ buildInputS t ps

theorem buildInputS_data (ps : List (String × String)) :
    ∀ t0, (buildInputS t0 ps).data
      = buildInput t0.data (ps.map fun p => (p.1.data, p.2.data)) := by
  induction ps with
  | nil => intro t0; rfl
  | cons p ps ih =>
    obtain ⟨s, t⟩ := p
    intro t0
    simp only [buildInputS, buildInput, List.map_cons, String.data_append, ih t]
    simp [openTag, closeTag, List.append_assoc]

/-- **C1.** For every input assembled as plain text interleaved with
`<sarcasm>…</sarcasm>`-delimited segments (the pieces themselves free of `<`),
the response formatter extracts every delimited segment in order of
appearance, removes the delimiters and segments from the main text and trims
surrounding whitespace to form the primary answer, then appends the extracted
segments after the primary answer in their original order, each rendered as
its own emphasised `\n\n💭 _…_` line. -/
theorem formatter_extracts_asides_in_order (t0 : String) (ps : List (String × String))
    (h0 : ∀ c ∈ t0.data, c ≠ '<')
    (hps : ∀ p ∈ ps, (∀ c ∈ p.1.data, c ≠ '<') ∧ (∀ c ∈ p.2.data, c ≠ '<')) :
    format_sarcastic_response (buildInputS t0 ps)
      = String.mk (pyStripL (t0.data ++ (ps.map fun p => p.2.data).flatten)
          ++ (ps.map fun p => sarcasmEmphasis p.1.data).flatten) := by
  have hd := buildInputS_data ps t0
  have hscan := scanSarcasm_buildInput (ps.map fun p => (p.1.data, p.2.data))
    (by
      intro q hq
      obtain ⟨p, hp, rfl⟩ := List.mem_map.1 hq
      exact hps p hp)
    t0.data h0
  unfold format_sarcastic_response
  rw [hd, hscan]
  simp only [textsConcat, List.map_map]
  rfl

/-- Witness for C1: the round-trip example from the spec, with the two remarks
re-appended in original order, each emphasis-marked. -/
theorem formatter_extracts_asides_in_order_witness :
    (∀ c ∈ "Answer text ".data, c ≠ '<')
    ∧ format_sarcastic_response
        "Answer text <sarcasm>remark one</sarcasm> more answer <sarcasm>remark two</sarcasm>"
        = "Answer text  more answer\n\n💭 _remark one_\n\n💭 _remark two_" := by
  constructor
  · decide
  · have h := formatter_extracts_asides_in_order "Answer text "
      [("remark one", " more answer "), ("remark two", "")]
      (by decide) (by decide)
    have e1 : buildInputS "Answer text " [("remark one", " more answer "), ("remark two", "")]
        = "Answer text <sarcasm>remark one</sarcasm> more answer <sarcasm>remark two</sarcasm>" := by
      decide
    have e2 : String.mk (pyStripL ("Answer text ".data
            ++ ([("remark one", " more answer "), ("remark two", "")].map
                fun p : String × String => p.2.data).flatten)
          ++ ([("remark one", " more answer "), ("remark two", "")].map
              fun p : String × String => sarcasmEmphasis p.1.data).flatten)
        = "Answer text  more answer\n\n💭 _remark one_\n\n💭 _remark two_" := by
      decide
    rw [← e1, h, e2]

/-- `containsSub pat l`: `pat` occurs as a contiguous substring of `l`. -/
def containsSub (pat : List Char) : List Char → Bool
  | [] => isPref pat []
  | c :: cs => isPref pat (c :: cs) || containsSub pat cs

/-- The input contains a `<sarcasm>` that is later closed by `</sarcasm>` —
i.e. the regex `<sarcasm>(.*?)</sarcasm>` has at least one match. -/
def hasDelimitedSegment : List Char → Bool
  | [] => false
  | c :: cs =>
    (isPref openTag (c :: cs) && containsSub closeTag ((c :: cs).drop openTag.length))
      || hasDelimitedSegment cs

theorem splitAtClose_none {l : List Char} (h : containsSub closeTag l = false) :
    splitAtClose l = none := by
  induction l with
  | nil => rfl
  | cons c cs ih =>
    simp only [containsSub, Bool.or_eq_false_iff] at h
    rw [splitAtClose, if_neg (by simp [h.1]), ih h.2]

theorem scanSarcasm_of_no_segment :
    ∀ l, hasDelimitedSegment l = false → scanSarcasm l = ([], l) := by
  intro l
  induction l with
  | nil => intro _; rfl
  | cons c cs ih =>
    intro h
    simp only [hasDelimitedSegment, Bool.or_eq_false_iff, Bool.and_eq_false_iff] at h
    by_cases hp : isPref openTag (c :: cs) = true
    · have hcont : containsSub closeTag ((c :: cs).drop openTag.length) = false := by
        rcases h.1 with h' | h'
        · rw [hp] at h'; cases h'
        · exact h'
      exact scanSarcasm_cons_noclose hp (splitAtClose_none hcont)
    · have hp' : isPref openTag (c :: cs) = false := by simpa using hp
      rw [scanSarcasm_cons_nomatch hp', ih h.2]

/-- **C2.** For every input string containing no `<sarcasm>…</sarcasm>`
delimited segment, the response formatter returns the input unchanged except
for trimming surrounding whitespace. -/
theorem formatter_identity_without_segments (s : String)
    (h : hasDelimitedSegment s.data = false) :
    format_sarcastic_response s = pyStrip s := by
  unfold format_sarcastic_response pyStrip
  rw [scanSarcasm_of_no_segment s.data h]
  simp

/-- Witness for C2: an input with a `<sarcasm` that is never properly opened
nor closed is returned trimmed, otherwise unchanged. -/
theorem formatter_identity_without_segments_witness :
    hasDelimitedSegment "  Claro, mi señor. <sarcasmo> ".data = false
    ∧ format_sarcastic_response "  Claro, mi señor. <sarcasmo> "
        = "Claro, mi señor. <sarcasmo>" := by
  refine ⟨by decide, ?_⟩
  rw [formatter_identity_without_segments _ (by decide)]
  decide

/-! ## Per-user conversation memory and `process_message`
(src/app.py lines 52–77, 171–224) -/

/-- One turn of a conversation, tagged human or assistant. -/
inductive Turn where
  | human : String → Turn
  | ai : String → Turn
deriving DecidableEq

/-- The global `user_memories` dict, extensionally: the mapping from user id
to that user's ordered turn sequence (a `ConversationBufferMemory` holds the
ordered message list); `none` means the key is absent. -/
def MemoryStore : Type := String → Option (List Turn)

/-- `get_or_create_memory` (src/app.py lines 70–77): return the existing
history for the user, or insert and return a fresh empty one.  Returns the
history together with the possibly updated store. -/
def get_or_create_memory (st : MemoryStore) (user_id : String) :
    List Turn × MemoryStore :=
  match st user_id with
  | some h => (h, st)
  | none => ([], fun v => if v = user_id then some [] else st v)

/-- The history the store currently associates with a user (empty when the
user is unknown). -/
def historyOf (st : MemoryStore) (user_id : String) : List Turn :=
  (st user_id).getD []

/-- `memory.chat_memory.add_user_message` / `add_ai_message`
(src/app.py lines 199–200): append one turn to the user's history in place. -/
def add_message (st : MemoryStore) (user_id : String) (t : Turn) : MemoryStore :=
  fun v => if v = user_id then some (historyOf st user_id ++ [t]) else st v

/-- The chat-history string passed into the ReAct prompt
(src/app.py lines 178–181). -/
def chatHistoryString (hist : List Turn) : String :=
  String.intercalate "\n" (hist.map fun t => match t with
    | .human c => "Human: " ++ c
    | .ai c => "AI: " ++ c)

/-- The fixed apology returned when processing fails (src/app.py line 209). -/
def apologyMessage : String := "Sorry, there was an error processing your request."

/-- The agent invocation performed inside `process_message`: the executor gets
the user input and the formatted chat history and either returns the output
string or raises (modelled as `Except`, the error carrying the exception
text). -/
def agentInvocation (invokeAgent : String → String → Except String String)
    (st : MemoryStore) (user_id message_text : String) : Except String String :=
  invokeAgent message_text (chatHistoryString (get_or_create_memory st user_id).1)

/-- `process_message` (src/app.py lines 171–209): read-or-create the user's
memory, invoke the agent on the message and formatted history, append the
human then the assistant turn, and format the response; any exception is
caught and mapped to the fixed apology string (the store keeps whatever
mutation happened before the exception — here only the auto-created empty
entry, since the agent is invoked before the appends). -/
def process_message (st : MemoryStore) (user_id message_text : String)
    (invokeAgent : String → String → Except String String) :
    MemoryStore × String :=
  let p := get_or_create_memory st user_id
  match agentInvocation invokeAgent st user_id message_text with
  | .error _ => (p.2, apologyMessage)
  | .ok response =>
    let st1 := add_message p.2 user_id (Turn.human message_text)
    let st2 := add_message st1 user_id (Turn.ai response)
    (st2, format_sarcastic_response response)

/-- `reset_command` (src/app.py lines 217–224): delete the user's history when
present; returns the updated store and the reply text. -/
def reset_command (st : MemoryStore) (user_id : String) : MemoryStore × String :=
  match st user_id with
  | some _ =>
    (fun v => if v = user_id then none else st v,
      "He olvidado nuestra conversación anterior. ¿En qué puedo ayudarte ahora?")
  | none => (st, "No hay conversación que borrar.")

/-- **C3.** For every user id and message, `process_message` returns a string
(it is a total function) and never propagates the agent's exception: whenever
the invocation raises, the fixed apology string is returned; otherwise it
returns the formatted agent output. -/
theorem process_message_total_or_apology (st : MemoryStore)
    (user_id message_text : String)
    (invokeAgent : String → String → Except String String) :
    ((process_message st user_id message_text invokeAgent).2 = apologyMessage
      ∨ ∃ r, agentInvocation invokeAgent st user_id message_text = Except.ok r
          ∧ (process_message st user_id message_text invokeAgent).2
              = format_sarcastic_response r)
    ∧ ∀ e, agentInvocation invokeAgent st user_id message_text = Except.error e →
        (process_message st user_id message_text invokeAgent).2 = apologyMessage := by
  cases hi : agentInvocation invokeAgent st user_id message_text with
  | error e =>
    refine ⟨Or.inl ?_, fun e' _ => ?_⟩
    · simp [process_message, hi]
    · simp [process_message, hi]
  | ok r =>
    refine ⟨Or.inr ⟨r, hi ▸ rfl, ?_⟩, fun e he => ?_⟩
    · simp [process_message, hi]
    · exact Except.noConfusion he

/-- Witness for C3: a raising agent yields exactly the apology string. -/
theorem process_message_total_or_apology_witness :
    (process_message (fun _ => none) "7" "hola"
        (fun _ _ => Except.error "boom")).2 = apologyMessage :=
  (process_message_total_or_apology (fun _ => none) "7" "hola"
    (fun _ _ => Except.error "boom")).2 "boom" rfl

/-- **C5.** On a completed exchange — the agent invocation returns assistant
text `A` for human text `H` — exactly one human turn `H` then one assistant
turn `A` are appended to user `u`'s history, in that order, so the new history
is the old one followed by `[human H, ai A]` and its length grows by exactly
two. -/
theorem process_message_appends_turns (st : MemoryStore) (u H A : String)
    (invokeAgent : String → String → Except String String)
    (hok : agentInvocation invokeAgent st u H = Except.ok A) :
    historyOf (process_message st u H invokeAgent).1 u
        = historyOf st u ++ [Turn.human H, Turn.ai A]
    ∧ (historyOf (process_message st u H invokeAgent).1 u).length
        = (historyOf st u).length + 2 := by
  have key : historyOf (process_message st u H invokeAgent).1 u
      = historyOf st u ++ [Turn.human H, Turn.ai A] := by
    simp only [process_message, hok]
    cases hst : st u with
    | some h => simp [get_or_create_memory, hst, add_message, historyOf]
    | none => simp [get_or_create_memory, hst, add_message, historyOf]
  exact ⟨key, by rw [key]; simp⟩

/-- Witness for C5: a first exchange leaves exactly the two new turns. -/
theorem process_message_appends_turns_witness :
    historyOf (process_message (fun _ => none) "7" "hola"
        (fun _ _ => Except.ok "ok")).1 "7" = [Turn.human "hola", Turn.ai "ok"] := by
  have h := process_message_appends_turns (fun _ => none) "7" "hola" "ok"
    (fun _ _ => Except.ok "ok") rfl
  simpa [historyOf] using h.1

/-- **C6.** For every user id `u`, `reset` followed by `get_or_create` yields
an empty history, and the reset leaves the history of every other user id
unchanged. -/
theorem reset_then_get_or_create_empty (st : MemoryStore) (u : String) :
    (get_or_create_memory (reset_command st u).1 u).1 = []
    ∧ ∀ v, v ≠ u → (reset_command st u).1 v = st v := by
  cases hst : st u with
  | some h =>
    refine ⟨?_, fun v hv => ?_⟩
    · simp [reset_command, hst, get_or_create_memory]
    · simp [reset_command, hst, hv]
  | none =>
    refine ⟨?_, fun v hv => ?_⟩
    · simp [reset_command, hst, get_or_create_memory]
    · simp [reset_command, hst]

/-- Witness for C6: resetting user `1` empties `1`'s next history and leaves
user `2`'s history intact. -/
theorem reset_then_get_or_create_empty_witness :
    ("2" : String) ≠ "1"
    ∧ (get_or_create_memory
        (reset_command
          (fun v => if v = "1" then some [Turn.human "x"]
            else if v = "2" then some [Turn.ai "y"] else none) "1").1 "1").1 = []
    ∧ (reset_command
        (fun v => if v = "1" then some [Turn.human "x"]
          else if v = "2" then some [Turn.ai "y"] else none) "1").1 "2"
        = some [Turn.ai "y"] := by
  have h := reset_then_get_or_create_empty
    (fun v => if v = "1" then some [Turn.human "x"]
      else if v = "2" then some [Turn.ai "y"] else none) "1"
  refine ⟨by decide, h.1, ?_⟩
  rw [h.2 "2" (by decide)]
  decide

/-! ## The bounded ReAct reasoning loop (src/app.py lines 79–140)

`create_agent_for_user` builds a LangChain `AgentExecutor` with
`max_iterations = 3`, `handle_parsing_errors = True` and
`early_stopping_method = "force"`.  The executor's loop is LangChain library
code — an external collaborator of this repository — so the loop itself is
modelled from the spec; the configuration constants come from the source. -/

/-- `max_iterations` passed to the `AgentExecutor` (src/app.py line 138). -/
def max_iterations : Nat := 3

/-- Modelled from the spec: the fallback output produced when the executor is
forcibly stopped after the iteration cap without reaching a final answer
("the best-available partial text (or a fallback message)"). -/
def forcedStopOutput : String :=
  "Agent stopped due to iteration limit or time limit."

/-- One model decision in the ReAct loop: a final answer, a tool action
(tool name and input), or output that fails to parse. -/
inductive AgentStep where
  | finish : String → AgentStep
  | act : String → String → AgentStep
  | malformed : String → AgentStep

/-- Whether the model produced a final answer. -/
def AgentStep.isFinish : AgentStep → Bool
  | .finish _ => true
  | _ => false

/-- Modelled from the spec: the corrective guidance fed back into the
transcript on a parse failure (`handle_parsing_errors = True`). -/
def correctiveObservation : String :=
  "Invalid format: produce either an Action or a Final Answer."

/-- Modelled from the spec: the ReAct reasoning loop run by the LangChain
`AgentExecutor` (external to src/).  `plan` is the model, mapping the
transcript of observations so far to its next decision; a tool action appends
the tool's observation text; malformed output appends the corrective guidance
and continues; when the iteration budget runs out the loop is forcibly stopped
(`early_stopping_method = "force"`) with the fixed fallback output.  Returns
the output together with the number of reasoning cycles used. -/
def runReActLoop (plan : List String → AgentStep)
    (runTool : String → String → String) :
    Nat → List String → String × Nat
  | 0, _ => (forcedStopOutput, 0)
  | n + 1, obs =>
    match plan obs with
    | .finish answer => (answer, 1)
    | .act tool input =>
      let r := runReActLoop plan runTool n (obs ++ [runTool tool input])
      (r.1, r.2 + 1)
    | .malformed _ =>
      let r := runReActLoop plan runTool n (obs ++ [correctiveObservation])
      (r.1, r.2 + 1)

/-- The executor configured by `create_agent_for_user` (src/app.py
lines 133–140): the loop with the iteration budget `max_iterations = 3`. -/
def agent_executor_invoke (plan : List String → AgentStep)
    (runTool : String → String → String) : String × Nat :=
  runReActLoop plan runTool max_iterations []

theorem runReActLoop_cycles_le (plan : List String → AgentStep)
    (runTool : String → String → String) :
    ∀ n obs, (runReActLoop plan runTool n obs).2 ≤ n := by
  intro n
  induction n with
  | zero => intro obs; exact Nat.le_refl 0
  | succ m ih =>
    intro obs
    cases hp : plan obs with
    | finish a => simp [runReActLoop, hp]
    | act tool input =>
      simp only [runReActLoop, hp]
      exact Nat.succ_le_succ (ih _)
    | malformed raw =>
      simp only [runReActLoop, hp]
      exact Nat.succ_le_succ (ih _)

theorem runReActLoop_forced (plan : List String → AgentStep)
    (runTool : String → String → String)
    (hnf : ∀ obs, (plan obs).isFinish = false) :
    ∀ n obs, (runReActLoop plan runTool n obs).1 = forcedStopOutput := by
  intro n
  induction n with
  | zero => intro obs; rfl
  | succ m ih =>
    intro obs
    cases hp : plan obs with
    | finish a =>
      have := hnf obs
      rw [hp] at this
      exact absurd this (by simp [AgentStep.isFinish])
    | act tool input =>
      simp only [runReActLoop, hp]
      exact ih _
    | malformed raw =>
      simp only [runReActLoop, hp]
      exact ih _

/-- **C4.** The agent reasoning loop is bounded by the fixed maximum of three
reasoning/acting cycles; if the model reaches no final answer, the loop is
forcibly stopped and the non-empty fallback string is returned rather than
looping indefinitely or raising. -/
theorem agent_loop_bounded_and_forced (plan : List String → AgentStep)
    (runTool : String → String → String) :
    (agent_executor_invoke plan runTool).2 ≤ max_iterations
    ∧ max_iterations = 3
    ∧ ((∀ obs, (plan obs).isFinish = false) →
        (agent_executor_invoke plan runTool).1 = forcedStopOutput
        ∧ forcedStopOutput ≠ "") := by
  refine ⟨runReActLoop_cycles_le plan runTool max_iterations [], rfl, fun hnf => ⟨?_, ?_⟩⟩
  · exact runReActLoop_forced plan runTool hnf max_iterations []
  · decide

/-- Witness for C4: a model that always emits malformed output is forcibly
stopped with the fixed non-empty fallback. -/
theorem agent_loop_bounded_and_forced_witness :
    (agent_executor_invoke (fun _ => AgentStep.malformed "??") (fun _ _ => "")).1
        = forcedStopOutput
    ∧ forcedStopOutput ≠ "" :=
  (agent_loop_bounded_and_forced (fun _ => AgentStep.malformed "??")
    (fun _ _ => "")).2.2 (fun _ => rfl)

/-! ## Weather tool (src/tools/weather_tool.py)

The HTTP calls are modelled by passing in the decoded provider responses: the
geocoding response (a list of entries with `lat`/`lon`) and the current-
conditions response, each possibly a request error.  JSON numbers are modelled
as rationals; Python's falsiness test `if not x` on an optional number is
`true` exactly for `None` and for the value `0`. -/

/-- A failed HTTP call: `requests.exceptions.HTTPError` (caught separately in
the source) or any other exception, carrying its text. -/
inductive RequestError where
  | http : RequestError
  | other : String → RequestError

/-- Python truthiness of an optional string (`None` and `""` are falsy). -/
def pyTruthyStr : Option String → Bool
  | none => false
  | some s => !s.isEmpty

/-- Python truthiness of an optional number (`None` and `0` are falsy). -/
def pyTruthyNum : Option Rat → Bool
  | none => false
  | some x => x != 0

/-- One entry of the OpenWeatherMap geocoding response. -/
structure GeoEntry where
  lat : Rat
  lon : Rat

/-- `get_coordinates` (src/tools/weather_tool.py lines 16–33): first entry's
coordinates, or `(None, None)` when the response is empty or the request
raised. -/
def get_coordinates (geoResult : Except RequestError (List GeoEntry)) :
    Option Rat × Option Rat :=
  match geoResult with
  | .error _ => (none, none)
  | .ok [] => (none, none)
  | .ok (e :: _) => (some e.lat, some e.lon)

/-- The fields `get_weather` reads from the current-conditions response
(each `none` when the key is absent from the provider JSON). -/
structure WeatherData where
  name : Option String
  country : Option String
  weather_main : Option String
  weather_desc : Option String
  temp : Option Rat
  feels_like : Option Rat
  humidity : Option Rat
  wind_speed : Option Rat

/-- Python `str.capitalize()` (ASCII model): first character upper-cased, the
rest lower-cased. -/
def pyCapitalize (s : String) : String :=
  match s.data with
  | [] => ""
  | c :: cs => String.mk (c.toUpper :: cs.map Char.toLower)

/-- Rendering of a provider number into the reply text (models the f-string
interpolation of the JSON number; the claims do not depend on the digits). -/
def ratRepr (q : Rat) : String := toString q

/-- The reply formatting of `get_weather` (src/tools/weather_tool.py
lines 57–87): sequential appends, with each of temperature / feels-like /
humidity / wind speed appended only when present (`is not None`). -/
def formatWeatherInfo (location : String) (d : WeatherData) : String :=
  let city_name := d.name.getD location
  let country := d.country.getD ""
  let weather_desc := d.weather_desc.getD ""
  let weather_info := "Weather in " ++ city_name
  let weather_info := if country ≠ "" then weather_info ++ ", " ++ country else weather_info
  let weather_info := weather_info ++ ":\n• Condition: " ++ pyCapitalize weather_desc ++ "\n"
  let weather_info := match d.temp with
    | some t => weather_info ++ "• Temperature: " ++ ratRepr t ++ "°C\n"
    | none => weather_info
  let weather_info := match d.feels_like with
    | some t => weather_info ++ "• Feels like: " ++ ratRepr t ++ "°C\n"
    | none => weather_info
  let weather_info := match d.humidity with
    | some t => weather_info ++ "• Humidity: " ++ ratRepr t ++ "%\n"
    | none => weather_info
  match d.wind_speed with
  | some t => weather_info ++ "• Wind speed: " ++ ratRepr t ++ " m/s"
  | none => weather_info

/-- `get_weather` (src/tools/weather_tool.py lines 35–94). -/
def get_weather (OPEN_WEATHER_API_KEY : Option String) (location : String)
    (geoResult : Except RequestError (List GeoEntry))
    (weatherResult : Except RequestError WeatherData) : String :=
  if !pyTruthyStr OPEN_WEATHER_API_KEY then
    "Sorry, the weather service is not available at the moment. Confifure the API key and try again."
  else
    let c := get_coordinates geoResult
    if !pyTruthyNum c.1 || !pyTruthyNum c.2 then
      "Could not find the location: " ++ location
    else
      match weatherResult with
      | .error .http =>
        "Error getting the weather at " ++ location ++ ". Could not connect to the weather service."
      | .error (.other _) => "Error getting the weather at " ++ location ++ "."
      | .ok data => formatWeatherInfo location data

/-! ## News tool (src/tools/news_tool.py) -/

/-- The fields `get_news` reads from one article of the provider response. -/
structure Article where
  title : Option String
  source_name : Option String
  description : Option String
  url : Option String

/-- The fields `get_news` reads from the provider response. -/
structure NewsData where
  totalResults : Option Nat
  articles : Option (List Article)

/-- The query URL chosen by `get_news` (src/tools/news_tool.py lines 36–51):
a truthy category or country switches from free-text search to curated
headlines. -/
def newsEndpoint (category country : Option String) : String :=
  if pyTruthyStr category || pyTruthyStr country then "https://newsapi.org/v2/top-headlines"
  else "https://newsapi.org/v2/everything"

/-- One formatted article (src/tools/news_tool.py lines 64–71). -/
def formatNewsItem (idx : Nat) (a : Article) : String :=
  toString idx ++ ". " ++ a.title.getD "Sin título" ++ " ("
    ++ a.source_name.getD "Fuente desconocida" ++ ")\n   "
    ++ a.description.getD "Sin descripción" ++ "\n   " ++ a.url.getD "" ++ "\n"

/-- `get_news` (src/tools/news_tool.py lines 17–80). -/
def get_news (NEWS_API_KEY : Option String) (query : String)
    (category country : Option String)
    (newsResult : Except RequestError NewsData) : String :=
  if !pyTruthyStr NEWS_API_KEY then
    "Sorry, the news service is not available at the moment. Configure the API key and try again."
  else
    let _url := newsEndpoint category country
    match newsResult with
    | .error .http => "Error obteniendo noticias. No se pudo conectar al servicio de noticias."
    | .error (.other msg) => "Error obteniendo noticias: " ++ msg
    | .ok data =>
      if data.totalResults.getD 0 == 0 then
        "No se encontraron noticias para '" ++ query ++ "'"
      else
        String.intercalate "\n"
          ("Últimas noticias:" :: (data.articles.getD []).enum.map
            (fun p => formatNewsItem (p.1 + 1) p.2))

/-- **C7.** With no configured provider API key (absent or empty), each tool
returns its fixed unavailability string, regardless of every other input, and
does not raise. -/
theorem missing_api_key_unavailable (key : Option String) (location : String)
    (geoResult : Except RequestError (List GeoEntry))
    (weatherResult : Except RequestError WeatherData)
    (query : String) (category country : Option String)
    (newsResult : Except RequestError NewsData)
    (hkey : pyTruthyStr key = false) :
    get_weather key location geoResult weatherResult
      = "Sorry, the weather service is not available at the moment. Confifure the API key and try again."
    ∧ get_news key query category country newsResult
      = "Sorry, the news service is not available at the moment. Configure the API key and try again." := by
  constructor
  · simp [get_weather, hkey]
  · simp [get_news, hkey]

/-- Witness for C7: with no key at all, both tools answer with their fixed
unavailability strings on arbitrary inputs. -/
theorem missing_api_key_unavailable_witness :
    get_weather none "Madrid" (Except.error RequestError.http)
        (Except.error RequestError.http)
      = "Sorry, the weather service is not available at the moment. Confifure the API key and try again."
    ∧ get_news none "fútbol" none none (Except.error RequestError.http)
      = "Sorry, the news service is not available at the moment. Configure the API key and try again." :=
  missing_api_key_unavailable none "Madrid" (Except.error RequestError.http)
    (Except.error RequestError.http) "fútbol" none none
    (Except.error RequestError.http) rfl

/-- **C10.** When geocoding succeeds but the first entry has latitude 0 or
longitude 0, `get_weather` returns the "Could not find the location" string —
for every current-conditions response, i.e. without consulting current
conditions — because `if not lat or not lon` treats the number 0 like an
absent coordinate. -/
theorem zero_coordinate_treated_as_missing (key : Option String)
    (location : String) (e : GeoEntry) (rest : List GeoEntry)
    (weatherResult : Except RequestError WeatherData)
    (hkey : pyTruthyStr key = true) (hz : e.lat = 0 ∨ e.lon = 0) :
    get_weather key location (Except.ok (e :: rest)) weatherResult
      = "Could not find the location: " ++ location := by
  rcases hz with hz | hz
  · simp [get_weather, hkey, get_coordinates, pyTruthyNum, hz]
  · simp [get_weather, hkey, get_coordinates, pyTruthyNum, hz]

/-- Witness for C10: a point on the equator (latitude 0) with a configured
key is reported as an unfindable location, whatever the conditions response
would have said. -/
theorem zero_coordinate_treated_as_missing_witness :
    pyTruthyStr (some "k") = true
    ∧ get_weather (some "k") "Isla Cero" (Except.ok [⟨0, 41⟩])
        (Except.error RequestError.http)
      = "Could not find the location: Isla Cero" :=
  ⟨rfl, zero_coordinate_treated_as_missing (some "k") "Isla Cero" ⟨0, 41⟩ []
    (Except.error RequestError.http) rfl (Or.inl rfl)⟩

/-- The part of the weather reply that is present for every response: the
header line and the condition line (the condition line is emitted even when
the response carries no weather description — it is then empty). -/
def weatherHeader (location : String) (d : WeatherData) : String :=
  let city_name := d.name.getD location
  let country := d.country.getD ""
  let base := "Weather in " ++ city_name
  let base := if country ≠ "" then base ++ ", " ++ country else base
  base ++ ":\n• Condition: " ++ pyCapitalize (d.weather_desc.getD "") ++ "\n"

/-- One optional field segment of the weather reply: empty when the field is
absent from the provider response, and `label ++ value ++ suffix` when
present. -/
def optSegment (label : String) (v : Option Rat) (suffix : String) : String :=
  match v with
  | none => ""
  | some x => label ++ ratRepr x ++ suffix

/-- Counterexample to C8 as stated: a provider response with no weather data
at all (in particular no condition/description field) still yields a reply
containing the condition field — the condition is not omitted when absent. -/
theorem weather_condition_not_omitted :
    (WeatherData.mk none none none none none none none none).weather_desc = none
    ∧ containsSub "• Condition:".data
        (formatWeatherInfo "Madrid"
          (WeatherData.mk none none none none none none none none)).data = true
    ∧ formatWeatherInfo "Madrid" (WeatherData.mk none none none none none none none none)
        = "Weather in Madrid:\n• Condition: \n" := by
  refine ⟨rfl, ?_, ?_⟩ <;> decide

/-- **C8 (amended).** The weather reply always contains the condition line
(with an empty description when the field is absent), followed by exactly one
segment for each of temperature, feels-like, humidity and wind speed that is
present in the provider response, in that order; each absent optional field
contributes nothing. -/
theorem weather_fields_included_or_omitted (location : String) (d : WeatherData) :
    formatWeatherInfo location d
      = weatherHeader location d
        ++ optSegment "• Temperature: " d.temp "°C\n"
        ++ optSegment "• Feels like: " d.feels_like "°C\n"
        ++ optSegment "• Humidity: " d.humidity "%\n"
        ++ optSegment "• Wind speed: " d.wind_speed " m/s"
    ∧ (∀ label suffix : String, optSegment label none suffix = "")
    ∧ (∀ (label suffix : String) (x : Rat),
        optSegment label (some x) suffix = label ++ ratRepr x ++ suffix) := by
  refine ⟨?_, fun _ _ => rfl, fun _ _ _ => rfl⟩
  obtain ⟨name, country, wmain, wdesc, temp, feels, hum, wind⟩ := d
  apply String.ext
  cases temp <;> cases feels <;> cases hum <;> cases wind <;>
    simp [formatWeatherInfo, weatherHeader, optSegment, String.data_append,
      List.append_assoc]

/-- Witness for C8 (amended): a response carrying temperature and humidity but
no feels-like and no wind speed produces exactly the header plus the two
present segments. -/
theorem weather_fields_included_or_omitted_witness :
    formatWeatherInfo "Lugo" (WeatherData.mk none none none (some "nubes") (some 12) none (some 80) none)
      = weatherHeader "Lugo" (WeatherData.mk none none none (some "nubes") (some 12) none (some 80) none)
        ++ optSegment "• Temperature: " (some 12) "°C\n"
        ++ optSegment "• Feels like: " none "°C\n"
        ++ optSegment "• Humidity: " (some 80) "%\n"
        ++ optSegment "• Wind speed: " none " m/s" :=
  (weather_fields_included_or_omitted "Lugo"
    (WeatherData.mk none none none (some "nubes") (some 12) none (some 80) none)).1

/-! ## Internet tool (src/tools/internet_tool.py)

`get_webpage_content` fetches a page, removes `script`/`style` elements from
the parsed tree, joins the remaining text with newline separators
(`get_text(separator="\n")`), strips every line, splits on double spaces,
drops blank chunks, rejoins with newlines, and truncates to `max_length`
characters with a marker.  The parsed page is modelled as a tree of text
nodes and tagged elements. -/

mutual
inductive HtmlNode where
  | text : String → HtmlNode
  | elem : String → HtmlForest → HtmlNode
deriving DecidableEq
inductive HtmlForest where
  | nil : HtmlForest
  | cons : HtmlNode → HtmlForest → HtmlForest
deriving DecidableEq
end

/-- `for script in soup(["script", "style"]): script.extract()`
(src/tools/internet_tool.py lines 70–72): remove every `script`/`style`
element, with its whole subtree, from the document. -/
def stripF : HtmlForest → HtmlForest
  | .nil => .nil
  | .cons (.text s) fs => .cons (.text s) (stripF fs)
  | .cons (.elem tag ch) fs =>
    if tag == "script" || tag == "style" then stripF fs
    else .cons (.elem tag (stripF ch)) (stripF fs)

/-- Independent checker: the forest contains no `script`/`style` element at
any depth. -/
def noScriptStyleF : HtmlForest → Bool
  | .nil => true
  | .cons (.text _) fs => noScriptStyleF fs
  | .cons (.elem tag ch) fs =>
    !(tag == "script" || tag == "style") && noScriptStyleF ch && noScriptStyleF fs

/-- The text leaves of the document, in order. -/
def textsF : HtmlForest → List (List Char)
  | .nil => []
  | .cons (.text s) fs => s.data :: textsF fs
  | .cons (.elem _ ch) fs => textsF ch ++ textsF fs

/-- Join pieces with a newline between consecutive pieces (`"\n".join(...)`,
and the `separator="\n"` of `get_text`). -/
def joinNL : List (List Char) → List Char
  | [] => []
  | [x] => x
  | x :: y :: xs => x ++ '\n' :: joinNL (y :: xs)

/-- The line-break characters recognised by Python's `str.splitlines()`. -/
def isPyLineBreak (c : Char) : Bool :=
  c == '\n' || c == '\r' || c == '\x0b' || c == '\x0c' ||
  c == '\x1c' || c == '\x1d' || c == '\x1e' || c == '\x85' ||
  c == ' ' || c == ' '

/-- Python `str.splitlines()`: split at every line boundary (`"\r\n"` counts
as one boundary); a trailing boundary produces no final empty line. -/
def pySplitlinesAux : List Char → List Char → List (List Char)
  | acc, [] => if acc.isEmpty then [] else [acc.reverse]
  | acc, '\r' :: '\n' :: rest => acc.reverse :: pySplitlinesAux [] rest
  | acc, c :: rest =>
    if isPyLineBreak c then acc.reverse :: pySplitlinesAux [] rest
    else pySplitlinesAux (c :: acc) rest

def pySplitlinesL (l : List Char) : List (List Char) :=
  pySplitlinesAux [] l

/-- Python `line.split("  ")`: split at every non-overlapping occurrence of
two consecutive spaces, scanning left to right. -/
def splitTwoSpacesAux : List Char → List Char → List (List Char)
  | acc, [] => [acc.reverse]
  | acc, ' ' :: ' ' :: rest => acc.reverse :: splitTwoSpacesAux [] rest
  | acc, c :: rest => splitTwoSpacesAux (c :: acc) rest

def splitTwoSpaces (l : List Char) : List (List Char) :=
  splitTwoSpacesAux [] l

/-- The whitespace-collapsing pipeline of `get_webpage_content`
(src/tools/internet_tool.py lines 77–82): strip every line, split lines on
double spaces, strip the pieces, and drop the blank ones. -/
def cleanupChunks (t : List Char) : List (List Char) :=
  (((pySplitlinesL t).map pyStripL).map fun line =>
    (splitTwoSpaces line).map pyStripL).flatten.filter fun c => !c.isEmpty

/-- The truncation marker appended when the content exceeds `max_length`
(src/tools/internet_tool.py line 86). -/
def truncationMarker : List Char := "... (contenido truncado)".data

/-- `get_webpage_content` (src/tools/internet_tool.py lines 47–92): on a
successful fetch, remove `script`/`style`, extract the text with newline
separators, collapse whitespace into non-blank stripped chunks joined by
newlines, truncate to `max_length` characters with the marker, and prefix the
header; any exception is converted to an error string. -/
def get_webpage_content (url : String) (fetched : Except String HtmlForest)
    (max_length : Nat) : String :=
  match fetched with
  | .error e => "Error obteniendo el contenido de la página web: " ++ e
  | .ok page =>
    let soup := stripF page
    let text0 := joinNL (textsF soup)
    let text1 := joinNL (cleanupChunks text0)
    let text2 :=
      if text1.length > max_length then text1.take max_length ++ truncationMarker
      else text1
    "Contenido de " ++ url ++ ":\n\n" ++ String.mk text2

/-! ### Lemmas for C9 -/

theorem noScriptStyle_stripF : ∀ f, noScriptStyleF (stripF f) = true
  | .nil => rfl
  | .cons (.text s) fs => by
    simp [stripF, noScriptStyleF, noScriptStyle_stripF fs]
  | .cons (.elem tag ch) fs => by
    by_cases h : (tag == "script" || tag == "style") = true
    · simp only [stripF, h, if_true]
      exact noScriptStyle_stripF fs
    · have h' : (tag == "script" || tag == "style") = false := by
        simpa using h
      simp [stripF, h', noScriptStyleF, noScriptStyle_stripF ch, noScriptStyle_stripF fs]

theorem stripF_id_of_noScriptStyle : ∀ f, noScriptStyleF f = true → stripF f = f
  | .nil, _ => rfl
  | .cons (.text s) fs, h => by
    simp only [noScriptStyleF] at h
    simp [stripF, stripF_id_of_noScriptStyle fs h]
  | .cons (.elem tag ch) fs, h => by
    simp only [noScriptStyleF, Bool.and_eq_true] at h
    obtain ⟨⟨h1, h2⟩, h3⟩ := h
    have h1' : (tag == "script" || tag == "style") = false := by
      simpa using h1
    simp [stripF, h1', stripF_id_of_noScriptStyle ch h2, stripF_id_of_noScriptStyle fs h3]

theorem dropWhile_idem (p : Char → Bool) :
    ∀ l : List Char, List.dropWhile p (List.dropWhile p l) = List.dropWhile p l := by
  intro l
  induction l with
  | nil => rfl
  | cons c cs ih =>
    by_cases h : p c = true
    · simp [List.dropWhile, h, ih]
    · simp [List.dropWhile, h]

/-- Python's right strip as a standalone operation. -/
def trimRight (l : List Char) : List Char :=
  (l.reverse.dropWhile isPySpace).reverse

theorem pyStripL_eq_trimRight (l : List Char) :
    pyStripL l = trimRight (l.dropWhile isPySpace) := rfl

theorem trimRight_prefix (y : List Char) :
    y = trimRight y ++ (y.reverse.takeWhile isPySpace).reverse := by
  have h := congrArg List.reverse
    (List.takeWhile_append_dropWhile (p := isPySpace) (l := y.reverse))
  rw [List.reverse_append, List.reverse_reverse] at h
  unfold trimRight
  exact h.symm

theorem dropWhile_trimRight {y : List Char}
    (hy : y.dropWhile isPySpace = y) :
    (trimRight y).dropWhile isPySpace = trimRight y := by
  cases hr : trimRight y with
  | nil => rfl
  | cons h t =>
    have hpre := trimRight_prefix y
    rw [hr] at hpre
    by_cases hph : isPySpace h = true
    · exfalso
      rw [hpre] at hy
      rw [List.cons_append, List.dropWhile_cons_of_pos hph] at hy
      have hlen := congrArg List.length hy
      have hle := (List.dropWhile_sublist (l := t ++ (y.reverse.takeWhile isPySpace).reverse) isPySpace).length_le
      simp only [List.length_cons, List.length_append] at hlen hle
      omega
    · exact List.dropWhile_cons_of_neg hph

theorem trimRight_idem (y : List Char) : trimRight (trimRight y) = trimRight y := by
  unfold trimRight
  rw [List.reverse_reverse, dropWhile_idem]

theorem pyStripL_idem (l : List Char) : pyStripL (pyStripL l) = pyStripL l := by
  have hx : (l.dropWhile isPySpace).dropWhile isPySpace = l.dropWhile isPySpace :=
    dropWhile_idem _ l
  have h1 : (pyStripL l).dropWhile isPySpace = pyStripL l := by
    rw [pyStripL_eq_trimRight]
    exact dropWhile_trimRight hx
  rw [pyStripL_eq_trimRight, h1, pyStripL_eq_trimRight l, trimRight_idem]

theorem cleanupChunks_props (t : List Char) :
    ∀ c ∈ cleanupChunks t, c ≠ [] ∧ pyStripL c = c := by
  intro c hc
  simp only [cleanupChunks, List.mem_filter, List.mem_flatten, List.mem_map] at hc
  obtain ⟨⟨L, ⟨⟨line, hline, hL⟩, hcL⟩⟩, hne⟩ := hc
  constructor
  · intro hnil
    subst hnil
    simp at hne
  · subst hL
    obtain ⟨x, hx, hcx⟩ := List.mem_map.1 hcL
    rw [← hcx]
    exact pyStripL_idem x

/-- **C9.** For every fetched page and maximum length: the fetch removes every
`script` and `style` element (and removes nothing else — a page without them
is left intact), every produced content chunk is non-blank with no leading or
trailing whitespace, and the returned content is truncated to at most
`max_length` characters with the truncation marker appended exactly when
truncation occurs. -/
theorem webpage_content_cleaned_and_truncated (url : String) (page : HtmlForest)
    (max_length : Nat) :
    noScriptStyleF (stripF page) = true
    ∧ (noScriptStyleF page = true → stripF page = page)
    ∧ (∀ c ∈ cleanupChunks (joinNL (textsF (stripF page))), c ≠ [] ∧ pyStripL c = c)
    ∧ ((joinNL (cleanupChunks (joinNL (textsF (stripF page))))).length ≤ max_length →
        get_webpage_content url (Except.ok page) max_length
          = "Contenido de " ++ url ++ ":\n\n"
            ++ String.mk (joinNL (cleanupChunks (joinNL (textsF (stripF page))))))
    ∧ ((joinNL (cleanupChunks (joinNL (textsF (stripF page))))).length > max_length →
        get_webpage_content url (Except.ok page) max_length
          = "Contenido de " ++ url ++ ":\n\n"
            ++ String.mk ((joinNL (cleanupChunks (joinNL (textsF (stripF page))))).take max_length
                ++ truncationMarker)
          ∧ ((joinNL (cleanupChunks (joinNL (textsF (stripF page))))).take max_length).length
              ≤ max_length) := by
  refine ⟨noScriptStyle_stripF page, stripF_id_of_noScriptStyle page,
    cleanupChunks_props _, fun hle => ?_, fun hgt => ⟨?_, ?_⟩⟩
  · simp only [get_webpage_content]
    rw [if_neg (by omega)]
  · simp only [get_webpage_content]
    rw [if_pos hgt]
  · rw [List.length_take]
    exact Nat.min_le_left _ _

/-- A small sample document: a script element, loose text with extra
whitespace, and a paragraph. -/
def samplePage : HtmlForest :=
  .cons (.elem "script" (.cons (.text "var x=1;") .nil))
    (.cons (.text "  Hola   mundo  ")
      (.cons (.elem "p" (.cons (.text " adiós ") .nil)) .nil))

/-- Witness for C9: on the sample page with `max_length = 10`, the script is
removed, whitespace is collapsed into non-blank lines, and the content is cut
at 10 characters with the truncation marker appended. -/
theorem webpage_content_cleaned_and_truncated_witness :
    noScriptStyleF (stripF samplePage) = true
    ∧ get_webpage_content "u" (Except.ok samplePage) 10
        = "Contenido de u:\n\nHola\nmundo... (contenido truncado)" := by
  have h := webpage_content_cleaned_and_truncated "u" samplePage 10
  refine ⟨h.1, ?_⟩
  have h5 := h.2.2.2.2 (by decide)
  rw [h5.1]
  decide
